import Mathlib

/-!
Verification of the BayesMonophyly program (`BayesMonophyly.py`) against its
natural-language specification.

The Python source is shallowly embedded below.  Numbers computed by Python's
true division are modelled as exact rationals (`ℚ`); fallible Python code
(exceptions such as `ValueError`, `ZeroDivisionError`, `IndexError` and the
script's own `ParsingError`) is modelled with `Option`/`Except` values.
-/

/-- Python exceptions raised by the script, with the exact message strings of
the source where the message matters. -/
inductive PyErr where
  | indexError
  | zeroDivisionError
  | valueError (msg : String)
  | parsingError (msg : String)
deriving DecidableEq

/-- Python true division `x / y`: raises `ZeroDivisionError` when `y` is 0. -/
def pydiv (x y : ℚ) : Except PyErr ℚ :=
  if y = 0 then .error .zeroDivisionError else .ok (x / y)

/-- Python `int()` applied to a float/rational: truncation toward zero. -/
def pyInt (q : ℚ) : Int :=
  if q < 0 then -⌊-q⌋ else ⌊q⌋

/-- `n_unrooted_trees(n)` (BayesMonophyly.py lines 260-262):
`math.factorial(2*n-5) / (2**(n-3) * math.factorial(n-3))`.
`math.factorial` raises `ValueError` on a negative argument (modelled as
`none`); the two guards mirror the two factorial calls in evaluation order. -/
def n_unrooted_trees (n : Int) : Option ℚ :=
  if 2 * n - 5 < 0 then none
  else if n - 3 < 0 then none
  else some (((2 * n - 5).toNat.factorial : ℚ) /
    ((2 : ℚ) ^ (n - 3).toNat * ((n - 3).toNat.factorial : ℚ)))

/-- `n_rooted_trees(n)` (BayesMonophyly.py lines 265-267):
`math.factorial(2*n-3) / (2**(n-2) * math.factorial(n-2))`. -/
def n_rooted_trees (n : Int) : Option ℚ :=
  if 2 * n - 3 < 0 then none
  else if n - 2 < 0 then none
  else some (((2 * n - 3).toNat.factorial : ℚ) /
    ((2 : ℚ) ^ (n - 2).toNat * ((n - 2).toNat.factorial : ℚ)))

/-- The spec's `topologies(n, rooted)`: dispatches to the rooted or unrooted
counting formula according to the flag.  Used to state the prior formula the
way the spec writes it; `compute_prior` below embeds the source's own two
branches. -/
def topologies (n : Int) (rooted : Bool) : Option ℚ :=
  match rooted with
  | true => n_rooted_trees n
  | false => n_unrooted_trees n

/-- The arithmetic part of `compute_prior` (BayesMonophyly.py lines 284-289):
both branches compute `topologies(T-K+1) * n_rooted_trees(K) / topologies(T)`
with the outer terms taken from the matching branch. -/
def prior_raw (num_taxa num_species : Int) (rooted : Bool) : Option ℚ :=
  match rooted with
  | true => do
    let a ← n_rooted_trees (num_taxa - num_species + 1)
    let b ← n_rooted_trees num_species
    let c ← n_rooted_trees num_taxa
    some (a * b / c)
  | false => do
    let a ← n_unrooted_trees (num_taxa - num_species + 1)
    let b ← n_rooted_trees num_species
    let c ← n_unrooted_trees num_taxa
    some (a * b / c)

/-- `compute_prior` (BayesMonophyly.py lines 282-299): the arithmetic above,
then `ValueError("Prior is one")` / `ValueError("Prior is zero")` on a
degenerate result, in the order of the source's two `if` statements. -/
def compute_prior (num_taxa num_species : Int) (rooted : Bool) : Except PyErr ℚ :=
  match prior_raw num_taxa num_species rooted with
  | none => .error (.valueError "factorial() not defined for negative values")
  | some p =>
    if p = 1 then .error (.valueError "Prior is one")
    else if p = 0 then .error (.valueError "Prior is zero")
    else .ok p

/-- The spec's name for the degenerate-prior failure: either of the two
`ValueError`s raised by `compute_prior` on a prior of exactly 1 or 0. -/
def DegeneratePrior (e : PyErr) : Prop :=
  e = .valueError "Prior is one" ∨ e = .valueError "Prior is zero"

/-- `compute_posterior` (BayesMonophyly.py lines 302-309):
`posterior = num_monophyletic / num_total`, then `ValueError("Posterior is
one")` when the posterior equals 1; a posterior of 0 is returned normally. -/
def compute_posterior (num_monophyletic num_total : ℕ) : Except PyErr ℚ :=
  match pydiv (num_monophyletic : ℚ) (num_total : ℚ) with
  | .error e => .error e
  | .ok posterior =>
    if posterior = 1 then .error (.valueError "Posterior is one")
    else .ok posterior

/-- `bayes_factor` (BayesMonophyly.py lines 270-279):
`(posterior/(1-posterior)) / (prior/(1-prior))`, with Python's left-to-right
evaluation of the three divisions.  The source's checks of degenerate inputs
(`if prior in [0,1]: pass` / `elif posterior == 1: pass`) are no-ops and
contribute nothing here. -/
def bayes_factor (prior posterior : ℚ) : Except PyErr ℚ :=
  match pydiv posterior (1 - posterior) with
  | .error e => .error e
  | .ok postOdds =>
    match pydiv prior (1 - prior) with
    | .error e => .error e
    | .ok priorOdds => pydiv postOdds priorOdds

/-- Burn-in trim of one run's tree list (BayesMonophyly.py line 334):
`trees[int(len(trees)*burnin):]`. -/
def burnin_trim (trees : List String) (burnin : ℚ) : List String :=
  trees.drop (pyInt ((trees.length : ℚ) * burnin)).toNat

/-- Burn-in over all runs, then concatenation in input order
(BayesMonophyly.py lines 334-335). -/
def apply_burnin (all_trees : List (List String)) (burnin : ℚ) : List String :=
  (all_trees.map (fun trees => burnin_trim trees burnin)).flatten

/-- Product of the odd numbers `3, 5, ..., 2*m+1`; `oddDF m = (2*m+1)!!`.
Helper for evaluating the tree-count formulas in closed form. -/
def oddDF : ℕ → ℕ
  | 0 => 1
  | m + 1 => (2 * m + 3) * oddDF m

theorem oddDF_pos (m : ℕ) : 0 < oddDF m := by
  induction m with
  | zero => decide
  | succ m ih =>
    simp only [oddDF]
    exact Nat.mul_pos (by omega) ih

theorem factorial_odd (m : ℕ) :
    (((2 * m + 1).factorial : ℚ)) = (oddDF m : ℚ) * ((2 : ℚ) ^ m * (m.factorial : ℚ)) := by
  induction m with
  | zero => simp [oddDF]
  | succ m ih =>
    have h1 : 2 * (m + 1) + 1 = (2 * m + 2) + 1 := by ring
    have h2 : (2 * m + 2 + 1).factorial = (2 * m + 3) * ((2 * m + 2) * (2 * m + 1).factorial) := by
      rw [Nat.factorial_succ, Nat.factorial_succ]
    rw [h1, h2]
    push_cast
    rw [ih]
    simp only [oddDF, Nat.factorial_succ]
    push_cast
    ring

theorem oddDF_mul_lt (m k : ℕ) : oddDF m * oddDF k < oddDF (m + k + 1) := by
  induction m with
  | zero =>
    have h : (1 : ℕ) * oddDF k < (2 * k + 3) * oddDF k :=
      mul_lt_mul_of_pos_right (by omega) (oddDF_pos k)
    have hz : (0 : ℕ) + k + 1 = k + 1 := by omega
    rw [hz]
    simpa [oddDF] using h
  | succ m ih =>
    calc oddDF (m + 1) * oddDF k = (2 * m + 3) * (oddDF m * oddDF k) := by
          simp only [oddDF]; ring
    _ < (2 * m + 3) * oddDF (m + k + 1) := mul_lt_mul_of_pos_left ih (by omega)
    _ ≤ (2 * (m + k + 1) + 3) * oddDF (m + k + 1) :=
          Nat.mul_le_mul_right _ (by omega)
    _ = oddDF (m + 1 + k + 1) := by
          have h : m + 1 + k + 1 = (m + k + 1) + 1 := by omega
          rw [h]; simp only [oddDF]

theorem n_rooted_trees_eq (n : Int) (h : 2 ≤ n) :
    n_rooted_trees n = some ((oddDF (n - 2).toNat : ℚ)) := by
  have h1 : ¬ (2 * n - 3 < 0) := by omega
  have h2 : ¬ (n - 2 < 0) := by omega
  have h3 : (2 * n - 3).toNat = 2 * (n - 2).toNat + 1 := by omega
  rw [n_rooted_trees, if_neg h1, if_neg h2, h3]
  congr 1
  rw [factorial_odd]
  have hp : (2 : ℚ) ^ (n - 2).toNat * (((n - 2).toNat.factorial : ℚ)) ≠ 0 := by
    positivity
  field_simp

theorem n_unrooted_trees_eq (n : Int) (h : 3 ≤ n) :
    n_unrooted_trees n = some ((oddDF (n - 3).toNat : ℚ)) := by
  have h1 : ¬ (2 * n - 5 < 0) := by omega
  have h2 : ¬ (n - 3 < 0) := by omega
  have h3 : (2 * n - 5).toNat = 2 * (n - 3).toNat + 1 := by omega
  rw [n_unrooted_trees, if_neg h1, if_neg h2, h3]
  congr 1
  rw [factorial_odd]
  have hp : (2 : ℚ) ^ (n - 3).toNat * (((n - 3).toNat.factorial : ℚ)) ≠ 0 := by
    positivity
  field_simp

theorem n_rooted_trees_defined (n : Int) (a : ℚ) (h : n_rooted_trees n = some a) :
    2 ≤ n ∧ a = (oddDF (n - 2).toNat : ℚ) := by
  have hn : 2 ≤ n := by
    by_contra hc
    rw [n_rooted_trees] at h
    rw [if_pos (by omega)] at h
    exact Option.noConfusion h
  refine ⟨hn, ?_⟩
  rw [n_rooted_trees_eq n hn] at h
  exact (Option.some_injective _ h).symm

theorem n_unrooted_trees_defined (n : Int) (a : ℚ) (h : n_unrooted_trees n = some a) :
    3 ≤ n ∧ a = (oddDF (n - 3).toNat : ℚ) := by
  have hn : 3 ≤ n := by
    by_contra hc
    rw [n_unrooted_trees] at h
    rw [if_pos (by omega)] at h
    exact Option.noConfusion h
  refine ⟨hn, ?_⟩
  rw [n_unrooted_trees_eq n hn] at h
  exact (Option.some_injective _ h).symm

theorem n_rooted_trees_val (n : Int) (m : ℕ) (h : n = m + 2) :
    n_rooted_trees n = some ((oddDF m : ℚ)) := by
  subst h
  rw [n_rooted_trees_eq _ (by omega)]
  have ht : ((m : Int) + 2 - 2).toNat = m := by omega
  rw [ht]

theorem n_unrooted_trees_val (n : Int) (m : ℕ) (h : n = m + 3) :
    n_unrooted_trees n = some ((oddDF m : ℚ)) := by
  subst h
  rw [n_unrooted_trees_eq _ (by omega)]
  have ht : ((m : Int) + 3 - 3).toNat = m := by omega
  rw [ht]

theorem compute_prior_of_oddDF (T K : Int) (r : Bool) (ma kb tc : ℕ)
    (hpr : prior_raw T K r = some ((oddDF ma : ℚ) * (oddDF kb : ℚ) / (oddDF tc : ℚ)))
    (htc : tc = ma + kb + 1) :
    compute_prior T K r = .ok ((oddDF ma : ℚ) * (oddDF kb : ℚ) / (oddDF tc : ℚ)) := by
  have hA : (0 : ℚ) < (oddDF ma : ℚ) := by exact_mod_cast oddDF_pos ma
  have hB : (0 : ℚ) < (oddDF kb : ℚ) := by exact_mod_cast oddDF_pos kb
  have hC : (0 : ℚ) < (oddDF tc : ℚ) := by exact_mod_cast oddDF_pos tc
  have hlt : (oddDF ma : ℚ) * (oddDF kb : ℚ) < (oddDF tc : ℚ) := by
    rw [htc]
    exact_mod_cast oddDF_mul_lt ma kb
  have h1 : (oddDF ma : ℚ) * (oddDF kb : ℚ) / (oddDF tc : ℚ) < 1 := (div_lt_one hC).mpr hlt
  have h0 : (0 : ℚ) < (oddDF ma : ℚ) * (oddDF kb : ℚ) / (oddDF tc : ℚ) :=
    div_pos (mul_pos hA hB) hC
  simp only [compute_prior, hpr]
  rw [if_neg h1.ne, if_neg h0.ne']

/-- C2: `compute_prior(T, K, rooted)` returns
`topologies(T-K+1, rooted) * rooted_topologies(K) / topologies(T, rooted)`
whenever the three terms are defined, with the outer terms dispatching on the
flag and the clade-internal factor always `n_rooted_trees(K)`. -/
theorem compute_prior_formula (T K : Int) (r : Bool) (a b c : ℚ)
    (ha : topologies (T - K + 1) r = some a) (hb : n_rooted_trees K = some b)
    (hc : topologies T r = some c) :
    compute_prior T K r = .ok (a * b / c) := by
  cases r with
  | true =>
    simp only [topologies] at ha hc
    obtain ⟨hKa, hav⟩ := n_rooted_trees_defined _ _ ha
    obtain ⟨hKb, hbv⟩ := n_rooted_trees_defined _ _ hb
    obtain ⟨hKc, hcv⟩ := n_rooted_trees_defined _ _ hc
    subst hav hbv hcv
    apply compute_prior_of_oddDF T K true ((T - K + 1 - 2).toNat) ((K - 2).toNat) ((T - 2).toNat)
      ?_ (by omega)
    simp only [prior_raw]
    rw [ha, hb, hc]
    rfl
  | false =>
    simp only [topologies] at ha hc
    obtain ⟨hKa, hav⟩ := n_unrooted_trees_defined _ _ ha
    obtain ⟨hKb, hbv⟩ := n_rooted_trees_defined _ _ hb
    obtain ⟨hKc, hcv⟩ := n_unrooted_trees_defined _ _ hc
    subst hav hbv hcv
    apply compute_prior_of_oddDF T K false ((T - K + 1 - 3).toNat) ((K - 2).toNat) ((T - 3).toNat)
      ?_ (by omega)
    simp only [prior_raw]
    rw [ha, hb, hc]
    rfl

theorem compute_prior_formula_w :
    topologies 4 false = some 3 ∧ n_rooted_trees 2 = some 1 ∧ topologies 5 false = some 15 ∧
    compute_prior 5 2 false = .ok (3 * 1 / 15) := by
  have h4 : topologies 4 false = some 3 := by
    simp only [topologies]
    rw [n_unrooted_trees_val 4 1 (by norm_num)]
    norm_num [show oddDF 1 = 3 from by decide]
  have h2 : n_rooted_trees 2 = some 1 := by
    rw [n_rooted_trees_val 2 0 (by norm_num)]
    norm_num [show oddDF 0 = 1 from rfl]
  have h5 : topologies 5 false = some 15 := by
    simp only [topologies]
    rw [n_unrooted_trees_val 5 2 (by norm_num)]
    norm_num [show oddDF 2 = 15 from by decide]
  exact ⟨h4, h2, h5, compute_prior_formula 5 2 false 3 1 15 h4 h2 h5⟩

/-- C3 counterexample: for `n` below the defined range the functions do not
return 1; `math.factorial` of a negative argument raises `ValueError`
(modelled as `none`). -/
theorem n_trees_small_cex :
    n_unrooted_trees 2 = none ∧ n_rooted_trees 1 = none ∧
    n_unrooted_trees 2 ≠ some 1 ∧ n_rooted_trees 1 ≠ some 1 := by
  have hu : n_unrooted_trees 2 = none := by
    rw [n_unrooted_trees, if_pos (by norm_num)]
  have hr : n_rooted_trees 1 = none := by
    rw [n_rooted_trees, if_pos (by norm_num)]
  exact ⟨hu, hr, by rw [hu]; exact fun h => Option.noConfusion h,
    by rw [hr]; exact fun h => Option.noConfusion h⟩

/-- C3 (amended): `n_unrooted_trees n = (2n-5)! / (2^(n-3) (n-3)!)` for
`n ≥ 3` and `n_rooted_trees n = (2n-3)! / (2^(n-2) (n-2)!)` for `n ≥ 2`; for
smaller `n` both functions fail on a negative factorial argument instead of
returning 1. -/
theorem n_trees_formula (n : Int) :
    n_unrooted_trees n = (if n < 3 then none else
      some (((2 * n - 5).toNat.factorial : ℚ) /
        ((2 : ℚ) ^ (n - 3).toNat * ((n - 3).toNat.factorial : ℚ))))
    ∧ n_rooted_trees n = (if n < 2 then none else
      some (((2 * n - 3).toNat.factorial : ℚ) /
        ((2 : ℚ) ^ (n - 2).toNat * ((n - 2).toNat.factorial : ℚ)))) := by
  constructor
  · rw [n_unrooted_trees]
    by_cases h : n < 3
    · rw [if_pos (by omega), if_pos h]
    · rw [if_neg (by omega), if_neg (by omega), if_neg h]
  · rw [n_rooted_trees]
    by_cases h : n < 2
    · rw [if_pos (by omega), if_pos h]
    · rw [if_neg (by omega), if_neg (by omega), if_neg h]

/-- C4: when the computed prior is exactly 0 or 1, `compute_prior` fails with
one of the two degenerate-prior `ValueError`s instead of returning; when it
lies strictly between 0 and 1 it is returned without error. -/
theorem compute_prior_degenerate (T K : Int) (r : Bool) (p : ℚ)
    (h : prior_raw T K r = some p) :
    ((p = 0 ∨ p = 1) → ∃ e, compute_prior T K r = .error e ∧ DegeneratePrior e)
    ∧ (0 < p → p < 1 → compute_prior T K r = .ok p) := by
  constructor
  · rintro (h0 | h1)
    · subst h0
      exact ⟨.valueError "Prior is zero", by simp [compute_prior, h], Or.inr rfl⟩
    · subst h1
      exact ⟨.valueError "Prior is one", by simp [compute_prior, h], Or.inl rfl⟩
  · intro hlt0 hlt1
    simp only [compute_prior, h]
    rw [if_neg hlt1.ne, if_neg hlt0.ne']

theorem compute_prior_degenerate_w :
    prior_raw 4 2 false = some (1/3) ∧ compute_prior 4 2 false = .ok (1/3) := by
  have hpr : prior_raw 4 2 false = some (1/3) := by
    simp only [prior_raw]
    rw [show (4 : Int) - 2 + 1 = 3 from by norm_num]
    rw [n_unrooted_trees_val 3 0 (by norm_num), n_rooted_trees_val 2 0 (by norm_num),
      n_unrooted_trees_val 4 1 (by norm_num)]
    simp [show oddDF 0 = 1 from rfl, show oddDF 1 = 3 from by decide]
  exact ⟨hpr, (compute_prior_degenerate 4 2 false (1/3) hpr).2 (by norm_num) (by norm_num)⟩

/-- C5: each run is trimmed by dropping its first `floor(length * burnin)`
trees and the trimmed runs are concatenated in input order; a run of 10 trees
with burnin 1/5 keeps exactly its last 8 entries. -/
theorem burnin_spec (all_trees : List (List String)) (b : ℚ) (hb0 : 0 ≤ b) (hb1 : b < 1) :
    apply_burnin all_trees b =
      (all_trees.map (fun ts => ts.drop (Int.toNat ⌊(ts.length : ℚ) * b⌋))).flatten
    ∧ ∀ ts : List String, ts.length = 10 → burnin_trim ts (1/5) = ts.drop 2 := by
  have hpy : ∀ q : ℚ, 0 ≤ q → pyInt q = ⌊q⌋ := by
    intro q hq
    rw [pyInt, if_neg (not_lt.mpr hq)]
  constructor
  · simp only [apply_burnin, burnin_trim]
    have hfun : (fun trees : List String => trees.drop (pyInt ((trees.length : ℚ) * b)).toNat)
        = (fun ts : List String => ts.drop (Int.toNat ⌊(ts.length : ℚ) * b⌋)) := by
      funext ts
      rw [hpy _ (mul_nonneg (by positivity) hb0)]
    rw [hfun]
  · intro ts h10
    rw [burnin_trim, h10, hpy _ (by norm_num)]
    norm_num
    rfl

theorem burnin_spec_w :
    burnin_trim ["t1", "t2", "t3", "t4", "t5", "t6", "t7", "t8", "t9", "t10"] (1/5) =
      ["t3", "t4", "t5", "t6", "t7", "t8", "t9", "t10"] :=
  ((burnin_spec [] (1/5) (by norm_num) (by norm_num)).2
    ["t1", "t2", "t3", "t4", "t5", "t6", "t7", "t8", "t9", "t10"] rfl).trans rfl

/-- C6: for a prior in (0,1) and a posterior in [0,1), `bayes_factor` returns
the ratio of posterior odds to prior odds; at prior 1/5 and posterior 1/2 the
result is 4. -/
theorem bayes_factor_formula (p q : ℚ) (hp0 : 0 < p) (hp1 : p < 1)
    (hq0 : 0 ≤ q) (hq1 : q < 1) :
    bayes_factor p q = .ok ((q / (1 - q)) / (p / (1 - p)))
    ∧ bayes_factor (1/5) (1/2) = .ok 4 := by
  constructor
  · have hq : (1 : ℚ) - q ≠ 0 := sub_ne_zero.mpr (ne_of_gt hq1)
    have hp : (1 : ℚ) - p ≠ 0 := sub_ne_zero.mpr (ne_of_gt hp1)
    have hpo : p / (1 - p) ≠ 0 := div_ne_zero hp0.ne' hp
    simp [bayes_factor, pydiv, hq, hp, hpo]
  · have h1 : (1 : ℚ) - 1/2 ≠ 0 := by norm_num
    have h2 : (1 : ℚ) - 1/5 ≠ 0 := by norm_num
    have h3 : (1 : ℚ)/5 / (1 - 1/5) ≠ 0 := by norm_num
    simp [bayes_factor, pydiv, h1, h2, h3]
    norm_num

theorem bayes_factor_formula_w :
    bayes_factor (1/5) (1/2) = .ok (((1:ℚ)/2 / (1 - 1/2)) / ((1/5) / (1 - 1/5))) :=
  (bayes_factor_formula (1/5) (1/2) (by norm_num) (by norm_num)
    (by norm_num) (by norm_num)).1

/-- C7: `compute_posterior(m, n)` returns `m / n`, failing with the
degenerate-posterior `ValueError` exactly when `m / n = 1`; a posterior of 0
is returned normally. -/
theorem compute_posterior_spec (m n : ℕ) (hn : 0 < n) :
    compute_posterior m n =
      (if (m : ℚ) / n = 1 then .error (.valueError "Posterior is one")
       else .ok ((m : ℚ) / n)) := by
  have hne : ((n : ℚ)) ≠ 0 := Nat.cast_ne_zero.mpr hn.ne'
  simp [compute_posterior, pydiv, hne]

theorem compute_posterior_spec_w : compute_posterior 1 2 = .ok (1/2) := by
  have h := compute_posterior_spec 1 2 (by norm_num)
  rw [h, if_neg (by norm_num)]
  norm_num

/-- C10: `bayes_factor` validates nothing itself; a posterior of 1 or a prior
of 0 reaches a division by zero and raises `ZeroDivisionError` instead of a
domain-specific error. -/
theorem bayes_factor_no_validation (p q : ℚ) (hp0 : 0 < p) (hp1 : p < 1)
    (hq0 : 0 < q) (hq1 : q < 1) :
    bayes_factor p 1 = .error .zeroDivisionError
    ∧ bayes_factor 0 q = .error .zeroDivisionError := by
  constructor
  · simp [bayes_factor, pydiv]
  · have hq : (1 : ℚ) - q ≠ 0 := sub_ne_zero.mpr (ne_of_gt hq1)
    simp [bayes_factor, pydiv, hq]

theorem bayes_factor_no_validation_w :
    bayes_factor (1/2) 1 = .error .zeroDivisionError
    ∧ bayes_factor 0 (1/2) = .error .zeroDivisionError :=
  bayes_factor_no_validation (1/2) (1/2) (by norm_num) (by norm_num)
    (by norm_num) (by norm_num)
/-! ## The NEXUS tree-file parser (`parse_tree_file`, BayesMonophyly.py lines 56-151)

Python strings are modelled through their character lists; the handful of
string primitives the source uses (`strip`, `lower`, `split`) are embedded
directly.  The scanners for the two regular-expression substitutions consume
at least one character per step, so they are written with a fuel argument
initialised to the length of the input, which makes them structurally
recursive (and hence evaluable by the kernel) while never exhausting the
fuel. -/

/-- Python `str.strip(chars)`: remove the given characters from both ends. -/
def pyStrip (cs : List Char) (s : String) : String :=
  String.mk (((s.data.dropWhile (fun c => cs.contains c)).reverse.dropWhile
    (fun c => cs.contains c)).reverse)

/-- The characters Python `str.strip()` (no argument) removes. -/
def pyWsChars : List Char := [' ', '\t', '\n', '\r', '\x0b', '\x0c']

/-- Python `str.strip()` with no argument: strip whitespace. -/
def pyStripWs (s : String) : String := pyStrip pyWsChars s

/-- Python `str.lower()` (ASCII case folding, which is all the source needs). -/
def pyLower (s : String) : String := String.mk (s.data.map Char.toLower)

/-- Python `str.split()` with no argument: split on whitespace runs,
discarding empty pieces. -/
def pySplitWs (s : String) : List String :=
  (s.split (fun c => pyWsChars.contains c)).filter (fun t => t ≠ "")

/-- Splits `cs` at the first occurrence of `sep`, returning the part before
and the part after. -/
def breakOnSep (sep : List Char) : List Char → Option (List Char × List Char)
  | [] => none
  | c :: rest =>
    if (c :: rest).take sep.length = sep then some ([], (c :: rest).drop sep.length)
    else match breakOnSep sep rest with
      | some (pre, post) => some (c :: pre, post)
      | none => none

/-- Fuelled worker for `pySplitOn`. -/
def pySplitOnGo (sep : List Char) : ℕ → List Char → List (List Char)
  | 0, cs => [cs]
  | fuel + 1, cs =>
    match breakOnSep sep cs with
    | none => [cs]
    | some (pre, post) => pre :: pySplitOnGo sep fuel post

/-- Python `str.split(sep)` for a non-empty separator: pieces between the
non-overlapping occurrences of `sep`, scanned left to right. -/
def pySplitOn (s sep : String) : List String :=
  (pySplitOnGo sep.data s.data.length s.data).map String.mk

/-- Value of a digit string (already checked to contain digits only). -/
def digitsToNat (ds : List Char) : ℕ :=
  ds.foldl (fun a c => 10 * a + (c.toNat - '0'.toNat)) 0

/-- Python `int(str)`: optional sign followed by at least one digit;
anything else raises `ValueError`. -/
def parseInt? (s : String) : Option Int :=
  match s.data with
  | [] => none
  | '-' :: ds =>
    if ds ≠ [] ∧ ds.all (fun c => c.isDigit) then some (-(digitsToNat ds : Int)) else none
  | '+' :: ds =>
    if ds ≠ [] ∧ ds.all (fun c => c.isDigit) then some ((digitsToNat ds : Int)) else none
  | ds => if ds.all (fun c => c.isDigit) then some ((digitsToNat ds : Int)) else none

/-- The optional exponent part `([eE]-[0-9]+)?` of the source's numeric
pattern: `e` or `E`, a mandatory minus sign, then at least one digit.
Returns the remainder on a successful (greedy) match. -/
def matchExp (cs : List Char) : Option (List Char) :=
  match cs with
  | 'e' :: '-' :: rest =>
    if (rest.takeWhile (fun c => c.isDigit)).isEmpty then none
    else some (rest.dropWhile (fun c => c.isDigit))
  | 'E' :: '-' :: rest =>
    if (rest.takeWhile (fun c => c.isDigit)).isEmpty then none
    else some (rest.dropWhile (fun c => c.isDigit))
  | _ => none

/-- Greedy match of the numeric body `[0-9]*\.?[0-9]*([eE]-[0-9]+)?`;
returns the remainder.  No part of this grammar can consume the characters
that may legally follow a match (`]` or anything non-numeric), so the greedy
parse reaches exactly the position Python's backtracking engine reaches. -/
def numTail (cs : List Char) : List Char :=
  let r1 := cs.dropWhile (fun c => c.isDigit)
  let r2 := match r1 with
    | '.' :: t => t
    | _ => r1
  let r3 := r2.dropWhile (fun c => c.isDigit)
  match matchExp r3 with
  | some r => r
  | none => r3

/-- Match of the branch-length pattern `:[0-9]+\.?[0-9]*([eE]-[0-9]+)?` at
the head of `cs`; returns the remainder after the match. -/
def matchBranchAt (cs : List Char) : Option (List Char) :=
  match cs with
  | ':' :: rest =>
    if (rest.takeWhile (fun c => c.isDigit)).isEmpty then none
    else some (numTail rest)
  | _ => none

/-- Match of the rate-annotation pattern
`\[&rate=[0-9]*\.?[0-9]*([eE]-[0-9]+)?\]` at the head of `cs`. -/
def matchRateAt (cs : List Char) : Option (List Char) :=
  if cs.take 7 = ['[', '&', 'r', 'a', 't', 'e', '='] then
    match numTail (cs.drop 7) with
    | ']' :: t => some t
    | _ => none
  else none

/-- Fuelled scanner for `re.sub(":[0-9]+\.?[0-9]*([eE]-[0-9]+)?", "", tree)`
(BayesMonophyly.py line 149): delete every match, scanning left to right and
resuming after each deleted match. -/
def subBranchGo : ℕ → List Char → List Char
  | _, [] => []
  | 0, cs => cs
  | fuel + 1, c :: rest =>
    match matchBranchAt (c :: rest) with
    | some r => subBranchGo fuel r
    | none => c :: subBranchGo fuel rest

/-- The branch-length substitution on a string. -/
def subBranch (s : String) : String := String.mk (subBranchGo s.data.length s.data)

/-- Fuelled scanner for
`re.sub("\[&rate=[0-9]*\.?[0-9]*([eE]-[0-9]+)?\]", "", tree)`
(BayesMonophyly.py line 147). -/
def subRateGo : ℕ → List Char → List Char
  | _, [] => []
  | 0, cs => cs
  | fuel + 1, c :: rest =>
    match matchRateAt (c :: rest) with
    | some r => subRateGo fuel r
    | none => c :: subRateGo fuel rest

/-- The rate-annotation substitution on a string. -/
def subRate (s : String) : String := String.mk (subRateGo s.data.length s.data)

/-- Character set of `line.strip("\n\t ;")` on tree lines. -/
def treeStripChars : List Char := ['\n', '\t', ' ', ';']

/-- Character set of `line.strip("\n\t ")` used by the header and block
scans. -/
def nexusStripChars : List Char := ['\n', '\t', ' ']

/-- Per-payload cleaning of a tree string (BayesMonophyly.py lines 141-149):
drop a leading `[&U] ` marker, apply the rate substitution when a `[` is
present, then apply the branch-length substitution. -/
def stripTags (t1 : String) : String :=
  let t2 := if t1.data.take 5 = ['[', '&', 'U', ']', ' '] then String.mk (t1.data.drop 5) else t1
  let t3 := if t2.data.contains '[' then subRate t2 else t2
  subBranch t3

/-- The payload of a tree line: `line.strip("\n\t ;").split(" = ")[1].strip()`
(BayesMonophyly.py lines 136-140); `none` models the `IndexError` when the
line has no ` = ` separator. -/
def payloadOf? (l : String) : Option String :=
  ((pySplitOn (pyStrip treeStripChars l) " = ").get? 1).map pyStripWs

/-- The tree-block terminator test: stripped line equal to `end`,
case-insensitively (BayesMonophyly.py line 137). -/
def isEndLine (l : String) : Bool := pyLower (pyStrip treeStripChars l) == "end"

/-- The tree-reading loop (BayesMonophyly.py lines 134-150): process lines
until an `end` line or the end of input, extracting and cleaning each
payload. -/
def readTrees : List String → Except PyErr (List String)
  | [] => .ok []
  | l :: rest =>
    if isEndLine l then .ok []
    else
      match payloadOf? l with
      | none => .error .indexError
      | some t1 =>
        match readTrees rest with
        | .error e => .error e
        | .ok ts => .ok (stripTags t1 :: ts)

/-- Python dict assignment `d[k] = v`: overwrite an existing key, else add. -/
def dictInsert (m : List (Int × String)) (k : Int) (v : String) : List (Int × String) :=
  if m.any (fun p => p.1 == k) then m.map (fun p => if p.1 == k then (k, v) else p)
  else m ++ [(k, v)]

/-- The translate-block loop (BayesMonophyly.py lines 110-118): store
`id -> name` pairs while each line splits into exactly two tokens; the first
line that does not is the terminator, whose (relative) index is returned.
`none` as the index models the loop running off the end of the file. -/
def readTranslateAux : List String → ℕ → List (Int × String) →
    Except PyErr (List (Int × String) × Option ℕ)
  | [], _, acc => .ok (acc, none)
  | l :: rest, idx, acc =>
    match pySplitWs (pyStrip ['\n', '\t', ',', ' '] l) with
    | [a, b] =>
      match parseInt? a with
      | none => .error (.valueError "invalid literal for int()")
      | some k => readTranslateAux rest (idx + 1) (dictInsert acc k b)
    | _ => .ok (acc, some idx)

/-- `ParsingError("No NEXUS header. Is file NEXUS?")`. -/
def notNexusErr : PyErr := .parsingError "No NEXUS header. Is file NEXUS?"

/-- Stages of `parse_tree_file` after the header check
(BayesMonophyly.py lines 91-151): locate `begin trees;` (the scan's default
index 0 doubling as the not-found flag, exactly as in the source), require
`translate` on the next line, read the translate block, locate the first
line starting with `tree` after the translate terminator, then read trees to
the `end` line. -/
def afterHeader (lines : List String) : Except PyErr (List (Int × String) × List String) :=
  let bs := (lines.findIdx? (fun l => pyLower (pyStrip nexusStripChars l) == "begin trees;")).getD 0
  if bs = 0 then .error (.parsingError "Begin trees block not found!")
  else
    match lines.get? (bs + 1) with
    | none => .error .indexError
    | some l1 =>
      if pyLower (pyStrip nexusStripChars l1) == "translate" then
        match readTranslateAux (lines.drop (bs + 2)) 0 [] with
        | .error e => .error e
        | .ok (_, none) => .error (.parsingError "ERROR: end of translation block not found.")
        | .ok (taxa, some rel) =>
          let bbe := rel + bs + 2
          match (lines.drop (bbe + 1)).findIdx?
              (fun l => pyLower (String.mk ((pyStrip nexusStripChars l).data.take 4)) == "tree") with
          | none => .error (.parsingError "ERROR: no tree was found!")
          | some rel2 =>
            match readTrees (lines.drop (rel2 + bbe + 1)) with
            | .error e => .error e
            | .ok trees => .ok (taxa, trees)
      else .error (.parsingError "ERROR: Misformed Begin trees block, \"translate\" not found.")

/-- `parse_tree_file` (BayesMonophyly.py lines 56-151) on the file's lines:
`tree_file_text[0]` raises `IndexError` on an empty file; the header check
compares the *first* line, stripped of `"\n\t "` and lowercased, against
`#nexus`. -/
def parse_tree_file (lines : List String) : Except PyErr (List (Int × String) × List String) :=
  match lines with
  | [] => .error .indexError
  | l0 :: _ =>
    if pyLower (pyStrip nexusStripChars l0) == "#nexus" then afterHeader lines
    else .error notNexusErr

/-- The tree lines of the block: everything up to the first `end` line. -/
def treeLinesOf (ls : List String) : List String :=
  ls.takeWhile (fun l => !isEndLine l)

theorem readTrees_error (ls : List String) (e : PyErr) (h : readTrees ls = .error e) :
    e = .indexError := by
  induction ls generalizing e with
  | nil => simp [readTrees] at h
  | cons l rest ih =>
    simp only [readTrees] at h
    split at h
    · exact absurd h (by simp)
    · split at h
      · injection h with h2
        exact h2.symm
      · split at h
        · rename_i e2 hr
          injection h with h2
          subst h2
          exact ih _ hr
        · exact absurd h (by simp)

theorem readTranslateAux_error (ls : List String) (idx : ℕ) (acc : List (Int × String))
    (e : PyErr) (h : readTranslateAux ls idx acc = .error e) :
    e = .valueError "invalid literal for int()" := by
  induction ls generalizing idx acc e with
  | nil => simp [readTranslateAux] at h
  | cons l rest ih =>
    simp only [readTranslateAux] at h
    split at h
    · split at h
      · injection h with h2
        exact h2.symm
      · exact ih _ _ _ h
    · exact absurd h (by simp)

theorem afterHeader_ne_notNexus (lines : List String) :
    afterHeader lines ≠ .error notNexusErr := by
  intro h
  simp only [afterHeader] at h
  split at h
  · simp [notNexusErr] at h
  · split at h
    · simp [notNexusErr] at h
    · split at h
      · split at h
        · rename_i e2 hr
          injection h with h2
          subst h2
          have hv := readTranslateAux_error _ _ _ _ hr
          simp [notNexusErr] at hv
        · simp [notNexusErr] at h
        · split at h
          · simp [notNexusErr] at h
          · split at h
            · rename_i e2 hr
              injection h with h2
              subst h2
              have hv := readTrees_error _ _ hr
              simp [notNexusErr] at hv
            · exact absurd h (by simp)
      · simp [notNexusErr] at h

/-- C8 counterexample: a file whose `#NEXUS` header is preceded by one empty
line.  The first non-empty line trims to `#nexus`, yet the parser raises the
NotNexus error, because it examines `tree_file_text[0]`, the literal first
line. -/
theorem parse_tree_file_cex :
    pyStrip nexusStripChars "" = "" ∧
    pyLower (pyStrip nexusStripChars "#NEXUS") = "#nexus" ∧
    parse_tree_file ["", "#NEXUS"] = .error notNexusErr :=
  ⟨rfl, rfl, rfl⟩

/-- C8 (amended): the parser fails with the NotNexus error if and only if
the file's *first* line (not its first non-empty line), trimmed and
lowercased, differs from `#nexus`; a header preceded by empty lines is
therefore rejected, and an empty file raises `IndexError` instead. -/
theorem parse_tree_file_notNexus (l0 : String) (rest : List String) :
    (parse_tree_file (l0 :: rest) = .error notNexusErr
      ↔ pyLower (pyStrip nexusStripChars l0) ≠ "#nexus")
    ∧ parse_tree_file [] = .error .indexError := by
  refine ⟨⟨?_, ?_⟩, rfl⟩
  · intro h hm
    simp only [parse_tree_file] at h
    rw [if_pos (beq_iff_eq.mpr hm)] at h
    exact afterHeader_ne_notNexus _ h
  · intro hne
    simp only [parse_tree_file]
    rw [if_neg (fun hb => hne (beq_iff_eq.mp hb))]

/-- C9: on a successful run, the tree-reading loop produces exactly one bare
topology string per tree line (the lines before the `end` terminator), each
equal to that line's payload (the trimmed text after ` = `) with the `[&U] `
marker stripped, the `[&rate=<number>]` annotations removed, and the
`:<number>` branch lengths removed, where `<number>` is digits with an
optional decimal point and an optional `e`/`E`-minus-digits exponent, as in
the source's patterns. -/
theorem readTrees_spec (ls ts : List String) (h : readTrees ls = .ok ts) :
    ts.length = (treeLinesOf ls).length ∧
    ∃ ps : List String, (treeLinesOf ls).map payloadOf? = ps.map some ∧
      ts = ps.map stripTags := by
  induction ls generalizing ts with
  | nil =>
    simp only [readTrees] at h
    injection h with h2
    subst h2
    exact ⟨rfl, [], rfl, rfl⟩
  | cons l rest ih =>
    simp only [readTrees] at h
    by_cases he : isEndLine l
    · rw [if_pos he] at h
      injection h with h2
      subst h2
      refine ⟨?_, [], ?_, rfl⟩
      · simp [treeLinesOf, List.takeWhile_cons, he]
      · simp [treeLinesOf, List.takeWhile_cons, he]
    · rw [if_neg he] at h
      cases hp : payloadOf? l with
      | none =>
        rw [hp] at h
        exact absurd h (by simp)
      | some t1 =>
        rw [hp] at h
        cases hr : readTrees rest with
        | error e2 =>
          rw [hr] at h
          exact absurd h (by simp)
        | ok ts2 =>
          rw [hr] at h
          injection h with h2
          subst h2
          obtain ⟨hlen, ps2, hmap, hts⟩ := ih ts2 hr
          have htl : treeLinesOf (l :: rest) = l :: treeLinesOf rest := by
            simp [treeLinesOf, List.takeWhile_cons, he]
          refine ⟨?_, t1 :: ps2, ?_, ?_⟩
          · simp [htl, hlen]
          · simp [htl, hp, hmap]
          · simp [hts]

theorem readTrees_spec_w :
    readTrees ["tree t1 = [&U] ((1[&rate=0.5]:1.0,2:2.0E-7),3);", "end;"]
      = .ok ["((1,2),3)"] ∧
    (["((1,2),3)"] : List String).length
      = (treeLinesOf ["tree t1 = [&U] ((1[&rate=0.5]:1.0,2:2.0E-7),3);", "end;"]).length ∧
    ∃ ps : List String,
      (treeLinesOf ["tree t1 = [&U] ((1[&rate=0.5]:1.0,2:2.0E-7),3);", "end;"]).map payloadOf?
        = ps.map some ∧
      (["((1,2),3)"] : List String) = ps.map stripTags :=
  ⟨rfl,
    (readTrees_spec ["tree t1 = [&U] ((1[&rate=0.5]:1.0,2:2.0E-7),3);", "end;"]
      ["((1,2),3)"] rfl).1,
    (readTrees_spec ["tree t1 = [&U] ((1[&rate=0.5]:1.0,2:2.0E-7),3);", "end;"]
      ["((1,2),3)"] rfl).2⟩

/-! ## The tree model and monophyly checker

Modelled from the spec: the source delegates monophyly classification to the
external ete2 toolkit (`ete2solution`, BayesMonophyly.py lines 214-248) and
its planned self-contained replacement `non_ete2solution` (line 256) is an
empty stub, so the recursive tree representation of spec section 3 and the
monophyly definition of spec section 4.5 are embedded here directly.  A node
is either a leaf owning a taxon id or an internal node owning an ordered
list of children (given as a mutually inductive forest so that all
recursions are structural). -/
mutual
inductive PTree where
  | leaf (id : ℕ)
  | node (children : PForest)
inductive PForest where
  | nil
  | cons (t : PTree) (ts : PForest)
end

mutual
def PTree.leaves : PTree → List ℕ
  | .leaf i => [i]
  | .node cs => PForest.leaves cs
def PForest.leaves : PForest → List ℕ
  | .nil => []
  | .cons t ts => PTree.leaves t ++ PForest.leaves ts
end

mutual
def PTree.subtrees : PTree → List PTree
  | .leaf i => [.leaf i]
  | .node cs => .node cs :: PForest.subtrees cs
def PForest.subtrees : PForest → List PTree
  | .nil => []
  | .cons t ts => PTree.subtrees t ++ PForest.subtrees ts
end

/-- A node's descendant-leaf-id set. -/
def PTree.leafFinset (t : PTree) : Finset ℕ := t.leaves.toFinset

/-- Modelled from the spec (section 4.5): a target set is monophyletic iff
some node's descendant-leaf set equals it exactly; for unrooted input it is
additionally monophyletic when some node's descendant-leaf set equals its
complement within the tree's total leaf set. -/
def is_monophyletic (root : PTree) (s : Finset ℕ) (rooted : Bool) : Bool :=
  root.subtrees.any (fun n =>
    decide (n.leafFinset = s) || (!rooted && decide (n.leafFinset = root.leafFinset \ s)))

/-- The parsed form of the spec's unrooted example tree `((1,2),(3,4),5);`. -/
def exTree : PTree :=
  .node (.cons (.node (.cons (.leaf 1) (.cons (.leaf 2) .nil)))
    (.cons (.node (.cons (.leaf 3) (.cons (.leaf 4) .nil)))
      (.cons (.leaf 5) .nil)))

/-- C1: with the rooted flag false the checker accepts exactly when some
node's descendant-leaf set equals the target set or its complement; on
`((1,2),(3,4),5);` the target `{3,4,5}` is monophyletic when unrooted (the
complement `{1,2}` matches a node) and non-monophyletic when rooted. -/
theorem is_monophyletic_unrooted (t : PTree) (s : Finset ℕ)
    (h2 : 2 ≤ s.card) (hlt : s.card < t.leafFinset.card) :
    (is_monophyletic t s false = true ↔
      ∃ n ∈ t.subtrees, n.leafFinset = s ∨ n.leafFinset = t.leafFinset \ s)
    ∧ is_monophyletic exTree ({3, 4, 5} : Finset ℕ) false = true
    ∧ is_monophyletic exTree ({3, 4, 5} : Finset ℕ) true = false := by
  refine ⟨?_, by decide, by decide⟩
  simp [is_monophyletic, List.any_eq_true]

theorem is_monophyletic_unrooted_w :
    2 ≤ ({3, 4, 5} : Finset ℕ).card ∧
    ({3, 4, 5} : Finset ℕ).card < exTree.leafFinset.card ∧
    ((is_monophyletic exTree ({3, 4, 5} : Finset ℕ) false = true ↔
      ∃ n ∈ exTree.subtrees, n.leafFinset = ({3, 4, 5} : Finset ℕ) ∨
        n.leafFinset = exTree.leafFinset \ ({3, 4, 5} : Finset ℕ))
    ∧ is_monophyletic exTree ({3, 4, 5} : Finset ℕ) false = true
    ∧ is_monophyletic exTree ({3, 4, 5} : Finset ℕ) true = false) := by
  have h := is_monophyletic_unrooted exTree ({3, 4, 5} : Finset ℕ) (by decide) (by decide)
  exact ⟨by decide, by decide, h⟩
